import Mathlib

/-!
Verification of the `dash-itec-serveless` read API (`/api/users` and friends)
against its natural-language specification.

The development shallowly embeds the JavaScript source:

* JS strings are modelled as lists of Unicode scalar values (`List Nat`);
  byte buffers as lists of naturals below 256.
* `Buffer.from(s, "utf8").toString("base64url")` is modelled as the
  composition of a UTF-8 encoder and a base64url encoder; the decoding
  direction is total and returns `Option`, modelling the fact that the JS
  code catches every decode error (`decodeCursor`'s `try/catch`).
* `JSON.stringify` / `JSON.parse` are modelled for the value grammar the
  repository actually serializes (null, booleans, integer numbers, strings,
  arrays, objects); non-integer numerals are not representable and the
  model's parser rejects them, which no claim here depends on.
* stateful handler code becomes explicit state passing; JS exceptions become
  `Except`; the Firestore store is an abstract function from a resume
  position to the page of documents it returns.

Definitions keep the source's names (`projectUser`, `mapDocToUser`,
`encodeCursor`, `decodeCursor`, `fetchStatsForUser`, ...).
-/

namespace DashItec

/-! ## Base64url codec

Models Node's `Buffer.toString("base64url")` (encode, no padding) and
`Buffer.from(s, "base64url")` (decode). The model's decoder is strict —
it rejects strings containing characters outside the base64url alphabet —
where Node is lenient; only the behaviour on valid encodings is used by
the claims. -/

/-- The base64url alphabet: sextet value (0..63) to character code. -/
def b64Char (n : Nat) : Nat :=
  if n < 26 then 65 + n
  else if n < 52 then 97 + (n - 26)
  else if n < 62 then 48 + (n - 52)
  else if n = 62 then 45
  else 95

/-- Inverse of the base64url alphabet; `none` for characters outside it. -/
def b64CharInv (c : Nat) : Option Nat :=
  if 65 ≤ c ∧ c ≤ 90 then some (c - 65)
  else if 97 ≤ c ∧ c ≤ 122 then some (26 + (c - 97))
  else if 48 ≤ c ∧ c ≤ 57 then some (52 + (c - 48))
  else if c = 45 then some 62
  else if c = 95 then some 63
  else none

theorem b64CharInv_b64Char : ∀ n < 64, b64CharInv (b64Char n) = some n := by
  decide

/-- base64url-encode a byte list (no padding, as Node's `base64url`). -/
def b64Encode : List Nat → List Nat
  | [] => []
  | [b1] => [b64Char (b1 / 4), b64Char (b1 % 4 * 16)]
  | [b1, b2] => [b64Char (b1 / 4), b64Char (b1 % 4 * 16 + b2 / 16), b64Char (b2 % 16 * 4)]
  | b1 :: b2 :: b3 :: rest =>
      b64Char (b1 / 4) :: b64Char (b1 % 4 * 16 + b2 / 16) ::
      b64Char (b2 % 16 * 4 + b3 / 64) :: b64Char (b3 % 64) :: b64Encode rest

/-- base64url-decode a character list back to bytes. -/
def b64Decode : List Nat → Option (List Nat)
  | [] => some []
  | [_] => none
  | [c1, c2] => do
      let s1 ← b64CharInv c1
      let s2 ← b64CharInv c2
      pure [s1 * 4 + s2 / 16]
  | [c1, c2, c3] => do
      let s1 ← b64CharInv c1
      let s2 ← b64CharInv c2
      let s3 ← b64CharInv c3
      pure [s1 * 4 + s2 / 16, s2 % 16 * 16 + s3 / 4]
  | c1 :: c2 :: c3 :: c4 :: rest => do
      let s1 ← b64CharInv c1
      let s2 ← b64CharInv c2
      let s3 ← b64CharInv c3
      let s4 ← b64CharInv c4
      let tail ← b64Decode rest
      pure ((s1 * 4 + s2 / 16) :: (s2 % 16 * 16 + s3 / 4) :: (s3 % 4 * 64 + s4) :: tail)

/-- Bytes are below 256. -/
def ByteList (l : List Nat) : Prop := ∀ b ∈ l, b < 256

theorem b64Decode_b64Encode : ∀ (l : List Nat), ByteList l → b64Decode (b64Encode l) = some l := by
  intro l
  induction l using b64Encode.induct with
  | case1 =>
      intro _; rfl
  | case2 b1 =>
      intro h
      have hb1 : b1 < 256 := h b1 (by simp)
      have h1 : b1 / 4 < 64 := by omega
      have h2 : b1 % 4 * 16 < 64 := by omega
      simp only [b64Encode, b64Decode, b64CharInv_b64Char _ h1, b64CharInv_b64Char _ h2,
        Option.bind_eq_bind, Option.some_bind]
      simp only [Option.pure_def, Option.some.injEq, List.cons.injEq, and_true]
      omega
  | case3 b1 b2 =>
      intro h
      have hb1 : b1 < 256 := h b1 (by simp)
      have hb2 : b2 < 256 := h b2 (by simp)
      have h1 : b1 / 4 < 64 := by omega
      have h2 : b1 % 4 * 16 + b2 / 16 < 64 := by omega
      have h3 : b2 % 16 * 4 < 64 := by omega
      simp only [b64Encode, b64Decode, b64CharInv_b64Char _ h1, b64CharInv_b64Char _ h2,
        b64CharInv_b64Char _ h3, Option.bind_eq_bind, Option.some_bind]
      simp only [Option.pure_def, Option.some.injEq, List.cons.injEq, and_true]
      constructor
      · omega
      · omega
  | case4 b1 b2 b3 rest ih =>
      intro h
      have hb1 : b1 < 256 := h b1 (by simp)
      have hb2 : b2 < 256 := h b2 (by simp)
      have hb3 : b3 < 256 := h b3 (by simp)
      have hrest : ByteList rest := by
        intro b hb; exact h b (by simp [hb])
      have h1 : b1 / 4 < 64 := by omega
      have h2 : b1 % 4 * 16 + b2 / 16 < 64 := by omega
      have h3 : b2 % 16 * 4 + b3 / 64 < 64 := by omega
      have h4 : b3 % 64 < 64 := by omega
      simp only [b64Encode, b64Decode, b64CharInv_b64Char _ h1, b64CharInv_b64Char _ h2,
        b64CharInv_b64Char _ h3, b64CharInv_b64Char _ h4, ih hrest,
        Option.bind_eq_bind, Option.some_bind]
      simp only [Option.pure_def, Option.some.injEq, List.cons.injEq, and_true]
      refine ⟨by omega, by omega, by omega⟩

/-! ## UTF-8 codec

Models `Buffer.from(string, "utf8")` (encode) and `buffer.toString("utf8")`
(decode). Strings are lists of Unicode scalar values. The model's decoder
returns `none` on ill-formed byte sequences where Node substitutes
U+FFFD; only well-formed encodings are relevant to the claims. -/

/-- UTF-8 encoding of one scalar value (1-4 bytes). -/
def utf8EncodeChar (c : Nat) : List Nat :=
  if c < 128 then [c]
  else if c < 2048 then [192 + c / 64, 128 + c % 64]
  else if c < 65536 then [224 + c / 4096, 128 + c / 64 % 64, 128 + c % 64]
  else [240 + c / 262144, 128 + c / 4096 % 64, 128 + c / 64 % 64, 128 + c % 64]

/-- UTF-8 encoding of a string (list of scalar values). -/
def utf8Encode (s : List Nat) : List Nat := (s.map utf8EncodeChar).flatten

/-- Decode one UTF-8 sequence from a head byte and the remaining bytes;
rejects stray continuation bytes and truncated/overlong/out-of-range
sequences. Returns the scalar value and the unconsumed tail. -/
def utf8DecodeOne (b : Nat) (rest : List Nat) : Option (Nat × List Nat) :=
  if b < 128 then some (b, rest)
  else if b < 192 then none
  else if b < 224 then
    match rest with
    | b2 :: r =>
      if 128 ≤ b2 ∧ b2 < 192 then
        if 128 ≤ (b - 192) * 64 + (b2 - 128) then some ((b - 192) * 64 + (b2 - 128), r)
        else none
      else none
    | [] => none
  else if b < 240 then
    match rest with
    | b2 :: b3 :: r =>
      if (128 ≤ b2 ∧ b2 < 192) ∧ (128 ≤ b3 ∧ b3 < 192) then
        if 2048 ≤ (b - 224) * 4096 + (b2 - 128) * 64 + (b3 - 128) then
          some ((b - 224) * 4096 + (b2 - 128) * 64 + (b3 - 128), r)
        else none
      else none
    | _ => none
  else if b < 248 then
    match rest with
    | b2 :: b3 :: b4 :: r =>
      if (128 ≤ b2 ∧ b2 < 192) ∧ (128 ≤ b3 ∧ b3 < 192) ∧ (128 ≤ b4 ∧ b4 < 192) then
        if 65536 ≤ (b - 240) * 262144 + (b2 - 128) * 4096 + (b3 - 128) * 64 + (b4 - 128) ∧
            (b - 240) * 262144 + (b2 - 128) * 4096 + (b3 - 128) * 64 + (b4 - 128) < 1114112 then
          some ((b - 240) * 262144 + (b2 - 128) * 4096 + (b3 - 128) * 64 + (b4 - 128), r)
        else none
      else none
    | _ => none
  else none

/-- Fuel-driven UTF-8 decoding loop; each step consumes at least one byte,
so `length + 1` fuel always suffices. -/
def utf8DecodeAux : Nat → List Nat → Option (List Nat)
  | 0, _ => none
  | _ + 1, [] => some []
  | f + 1, b :: rest =>
      match utf8DecodeOne b rest with
      | some (c, r) => (utf8DecodeAux f r).map (c :: ·)
      | none => none

/-- UTF-8 decoding; rejects ill-formed byte sequences. -/
def utf8Decode (l : List Nat) : Option (List Nat) := utf8DecodeAux (l.length + 1) l

/-- A well-formed model string: every element is a Unicode code point. -/
def WfStr (s : List Nat) : Prop := ∀ c ∈ s, c < 1114112

theorem utf8DecodeOne_encodeChar {c : Nat} (hc : c < 1114112) (t : List Nat) :
    ∀ b r, utf8EncodeChar c = b :: r → utf8DecodeOne b (r ++ t) = some (c, t) := by
  intro b r hbr
  unfold utf8EncodeChar at hbr
  by_cases h1 : c < 128
  · rw [if_pos h1] at hbr
    injection hbr with hb hr
    subst hb; subst hr
    simp only [utf8DecodeOne, if_pos h1, List.nil_append]
  · by_cases h2 : c < 2048
    · rw [if_neg h1, if_pos h2] at hbr
      injection hbr with hb hr
      subst hb; subst hr
      have e1 : ¬ (192 + c / 64 < 128) := by omega
      have e2 : ¬ (192 + c / 64 < 192) := by omega
      have e3 : 192 + c / 64 < 224 := by omega
      simp only [utf8DecodeOne, if_neg e1, if_neg e2, if_pos e3, List.cons_append,
        List.nil_append]
      have e4 : 128 ≤ 128 + c % 64 ∧ 128 + c % 64 < 192 := by omega
      rw [if_pos e4, if_pos (by omega : 128 ≤ (192 + c / 64 - 192) * 64 + (128 + c % 64 - 128))]
      have : (192 + c / 64 - 192) * 64 + (128 + c % 64 - 128) = c := by omega
      rw [this]
    · by_cases h3 : c < 65536
      · rw [if_neg h1, if_neg h2, if_pos h3] at hbr
        injection hbr with hb hr
        subst hb; subst hr
        have e1 : ¬ (224 + c / 4096 < 128) := by omega
        have e2 : ¬ (224 + c / 4096 < 192) := by omega
        have e3 : ¬ (224 + c / 4096 < 224) := by omega
        have e4 : 224 + c / 4096 < 240 := by omega
        simp only [utf8DecodeOne, if_neg e1, if_neg e2, if_neg e3, if_pos e4,
          List.cons_append, List.nil_append]
        have e5 : (128 ≤ 128 + c / 64 % 64 ∧ 128 + c / 64 % 64 < 192) ∧
            (128 ≤ 128 + c % 64 ∧ 128 + c % 64 < 192) := by omega
        rw [if_pos e5, if_pos (by omega :
          2048 ≤ (224 + c / 4096 - 224) * 4096 + (128 + c / 64 % 64 - 128) * 64 + (128 + c % 64 - 128))]
        have : (224 + c / 4096 - 224) * 4096 + (128 + c / 64 % 64 - 128) * 64 +
            (128 + c % 64 - 128) = c := by omega
        rw [this]
      · rw [if_neg h1, if_neg h2, if_neg h3] at hbr
        injection hbr with hb hr
        subst hb; subst hr
        have e1 : ¬ (240 + c / 262144 < 128) := by omega
        have e2 : ¬ (240 + c / 262144 < 192) := by omega
        have e3 : ¬ (240 + c / 262144 < 224) := by omega
        have e4 : ¬ (240 + c / 262144 < 240) := by omega
        have e5 : 240 + c / 262144 < 248 := by omega
        simp only [utf8DecodeOne, if_neg e1, if_neg e2, if_neg e3, if_neg e4, if_pos e5,
          List.cons_append, List.nil_append]
        have e6 : (128 ≤ 128 + c / 4096 % 64 ∧ 128 + c / 4096 % 64 < 192) ∧
            (128 ≤ 128 + c / 64 % 64 ∧ 128 + c / 64 % 64 < 192) ∧
            (128 ≤ 128 + c % 64 ∧ 128 + c % 64 < 192) := by omega
        rw [if_pos e6, if_pos (by omega :
          65536 ≤ (240 + c / 262144 - 240) * 262144 + (128 + c / 4096 % 64 - 128) * 4096 +
            (128 + c / 64 % 64 - 128) * 64 + (128 + c % 64 - 128) ∧
          (240 + c / 262144 - 240) * 262144 + (128 + c / 4096 % 64 - 128) * 4096 +
            (128 + c / 64 % 64 - 128) * 64 + (128 + c % 64 - 128) < 1114112)]
        have : (240 + c / 262144 - 240) * 262144 + (128 + c / 4096 % 64 - 128) * 4096 +
            (128 + c / 64 % 64 - 128) * 64 + (128 + c % 64 - 128) = c := by omega
        rw [this]

theorem utf8EncodeChar_ne_nil (c : Nat) : utf8EncodeChar c ≠ [] := by
  unfold utf8EncodeChar
  split
  · simp
  · split
    · simp
    · split <;> simp

theorem utf8DecodeAux_encode : ∀ (s : List Nat), WfStr s → ∀ f, s.length + 1 ≤ f →
    utf8DecodeAux f (utf8Encode s) = some s := by
  intro s
  induction s with
  | nil =>
      intro _ f hf
      match f, hf with
      | g + 1, _ => rfl
  | cons c cs ih =>
      intro hs f hf
      have hc : c < 1114112 := hs c (by simp)
      have hcs : WfStr cs := by intro x hx; exact hs x (by simp [hx])
      match f, hf with
      | g + 1, hf =>
        have henc : utf8Encode (c :: cs) = utf8EncodeChar c ++ utf8Encode cs := by
          simp [utf8Encode]
        obtain ⟨b, r, hbr⟩ : ∃ b r, utf8EncodeChar c = b :: r := by
          cases hE : utf8EncodeChar c with
          | nil => exact absurd hE (utf8EncodeChar_ne_nil c)
          | cons b r => exact ⟨b, r, rfl⟩
        rw [henc, hbr, List.cons_append]
        have hone := utf8DecodeOne_encodeChar hc (utf8Encode cs) b r hbr
        simp only [utf8DecodeAux, hone]
        simp only [List.length_cons] at hf
        rw [ih hcs g (by omega)]
        rfl

theorem utf8Encode_length (s : List Nat) : s.length ≤ (utf8Encode s).length := by
  induction s with
  | nil => simp [utf8Encode]
  | cons c cs ih =>
      have h1 : utf8Encode (c :: cs) = utf8EncodeChar c ++ utf8Encode cs := by
        simp [utf8Encode]
      have h2 : 1 ≤ (utf8EncodeChar c).length := by
        cases hE : utf8EncodeChar c with
        | nil => exact absurd hE (utf8EncodeChar_ne_nil c)
        | cons b r => simp
      rw [h1, List.length_append, List.length_cons]
      omega

theorem utf8Decode_utf8Encode (s : List Nat) (hs : WfStr s) :
    utf8Decode (utf8Encode s) = some s := by
  have hlen := utf8Encode_length s
  exact utf8DecodeAux_encode s hs _ (by omega)

theorem utf8EncodeChar_bytes {c : Nat} (hc : c < 1114112) : ByteList (utf8EncodeChar c) := by
  intro b hb
  unfold utf8EncodeChar at hb
  split at hb
  · simp at hb; omega
  · split at hb
    · simp at hb; rcases hb with h | h <;> omega
    · split at hb
      · simp at hb; rcases hb with h | h | h <;> omega
      · simp at hb; rcases hb with h | h | h | h <;> omega

theorem utf8Encode_bytes {s : List Nat} (hs : WfStr s) : ByteList (utf8Encode s) := by
  intro b hb
  unfold utf8Encode at hb
  rw [List.mem_flatten] at hb
  obtain ⟨l, hl, hbl⟩ := hb
  rw [List.mem_map] at hl
  obtain ⟨c, hc, rfl⟩ := hl
  exact utf8EncodeChar_bytes (hs c hc) b hbl

/-! ## JSON values

Model of the JSON value grammar as used by the repository. Numbers are
restricted to integers: the only numeric values the source ever serializes
into a cursor are Firestore sizes/ids, and no claim depends on fractional
numerals (the model's parser rejects them). -/

inductive JVal where
  | jnull : JVal
  | jbool (b : Bool) : JVal
  | jnum (n : Int) : JVal
  | jstr (s : List Nat) : JVal
  | jarr (xs : List JVal) : JVal
  | jobj (fs : List (List Nat × JVal)) : JVal

/-! ## JSON.stringify (for the value shapes the source serializes) -/

/-- Lowercase hex digit character, as emitted by `JSON.stringify` escapes. -/
def hexDigitChar (d : Nat) : Nat := if d < 10 then 48 + d else 87 + d

/-- `JSON.stringify` escaping of one string character: quote, backslash and
the named control escapes, `\u00XX` for other control characters, everything
else verbatim. -/
def escapeChar (c : Nat) : List Nat :=
  if c = 34 then [92, 34]
  else if c = 92 then [92, 92]
  else if c = 8 then [92, 98]
  else if c = 9 then [92, 116]
  else if c = 10 then [92, 110]
  else if c = 12 then [92, 102]
  else if c = 13 then [92, 114]
  else if c < 32 then [92, 117, 48, 48, hexDigitChar (c / 16), hexDigitChar (c % 16)]
  else [c]

/-- `JSON.stringify` of a string. -/
def stringifyStr (s : List Nat) : List Nat := 34 :: ((s.map escapeChar).flatten ++ [34])

/-- Decimal digits of `n`, least significant first; fuel-driven so the kernel
can evaluate it (`fuel ≥ n` always suffices, and `[0]` is produced for 0). -/
def natDigitsRev : Nat → Nat → List Nat
  | 0, _ => []
  | f + 1, n => if n < 10 then [n] else n % 10 :: natDigitsRev f (n / 10)

/-- Decimal numeral of a natural number. -/
def stringifyNat (n : Nat) : List Nat := ((natDigitsRev (n + 1) n).map (· + 48)).reverse

/-- `JSON.stringify` of an integer. -/
def stringifyInt : Int → List Nat
  | Int.ofNat n => stringifyNat n
  | Int.negSucc m => 45 :: stringifyNat (m + 1)

/-! ## JSON.parse -/

/-- JSON whitespace. -/
def isWsB (c : Nat) : Bool := decide (c = 32 ∨ c = 9 ∨ c = 10 ∨ c = 13)

/-- Skip leading JSON whitespace. -/
def skipWs (s : List Nat) : List Nat := s.dropWhile isWsB

/-- Hex digit value of a character. -/
def hexVal (c : Nat) : Option Nat :=
  if 48 ≤ c ∧ c ≤ 57 then some (c - 48)
  else if 97 ≤ c ∧ c ≤ 102 then some (c - 87)
  else if 65 ≤ c ∧ c ≤ 70 then some (c - 55)
  else none

/-- Prepend a character to the string component of a string-parse result. -/
def mapConsFst (c : Nat) (o : Option (List Nat × List Nat)) :
    Option (List Nat × List Nat) :=
  o.map (fun p => (c :: p.1, p.2))

/-- Parse a JSON string body (after the opening quote) up to the closing
quote, handling the standard escapes. Returns content and tail. -/
def parseStrBody : List Nat → Option (List Nat × List Nat)
  | [] => none
  | c :: rest =>
    if c = 34 then some ([], rest)
    else if c = 92 then
      match rest with
      | [] => none
      | e :: r =>
        if e = 34 then mapConsFst 34 (parseStrBody r)
        else if e = 92 then mapConsFst 92 (parseStrBody r)
        else if e = 47 then mapConsFst 47 (parseStrBody r)
        else if e = 98 then mapConsFst 8 (parseStrBody r)
        else if e = 102 then mapConsFst 12 (parseStrBody r)
        else if e = 110 then mapConsFst 10 (parseStrBody r)
        else if e = 114 then mapConsFst 13 (parseStrBody r)
        else if e = 116 then mapConsFst 9 (parseStrBody r)
        else if e = 117 then
          match r with
          | h1 :: h2 :: h3 :: h4 :: r2 =>
            match hexVal h1, hexVal h2, hexVal h3, hexVal h4 with
            | some a, some b, some c2, some d =>
                mapConsFst (a * 4096 + b * 256 + c2 * 16 + d) (parseStrBody r2)
            | _, _, _, _ => none
          | _ => none
        else none
    else mapConsFst c (parseStrBody rest)

/-- Digit character test. -/
def isDigitB (c : Nat) : Bool := decide (48 ≤ c ∧ c ≤ 57)

/-- Numeric value of a most-significant-first digit-character run. -/
def natFromDigits (ds : List Nat) : Nat := ds.foldl (fun a d => a * 10 + (d - 48)) 0

/-- Parse an unsigned integer numeral; rejects empty runs and numerals
continued by `.`/`e`/`E` (the model does not represent non-integers). -/
def parseNatNum (s : List Nat) : Option (Nat × List Nat) :=
  let ds := s.takeWhile isDigitB
  let r := s.dropWhile isDigitB
  if ds = [] then none
  else
    match r with
    | [] => some (natFromDigits ds, [])
    | c :: _ => if c = 46 ∨ c = 101 ∨ c = 69 then none else some (natFromDigits ds, r)

/-- Parse a JSON integer numeral with optional leading minus. -/
def parseNum (s : List Nat) : Option (Int × List Nat) :=
  match s with
  | [] => none
  | c :: rest =>
    if c = 45 then (parseNatNum rest).map (fun p => (-(p.1 : Int), p.2))
    else (parseNatNum s).map (fun p => ((p.1 : Int), p.2))

mutual

/-- Fuel-driven recursive-descent JSON value parse; returns value and tail. -/
def parseVal : Nat → List Nat → Option (JVal × List Nat)
  | 0, _ => none
  | f + 1, s =>
    match skipWs s with
    | [] => none
    | c :: t =>
      if c = 110 then
        match t with
        | 117 :: 108 :: 108 :: r => some (JVal.jnull, r)
        | _ => none
      else if c = 116 then
        match t with
        | 114 :: 117 :: 101 :: r => some (JVal.jbool true, r)
        | _ => none
      else if c = 102 then
        match t with
        | 97 :: 108 :: 115 :: 101 :: r => some (JVal.jbool false, r)
        | _ => none
      else if c = 34 then (parseStrBody t).map (fun p => (JVal.jstr p.1, p.2))
      else if c = 123 then
        match skipWs t with
        | [] => (parseMembers f t).map (fun p => (JVal.jobj p.1, p.2))
        | c2 :: r =>
          if c2 = 125 then some (JVal.jobj [], r)
          else (parseMembers f t).map (fun p => (JVal.jobj p.1, p.2))
      else if c = 91 then
        match skipWs t with
        | [] => (parseElems f t).map (fun p => (JVal.jarr p.1, p.2))
        | c2 :: r =>
          if c2 = 93 then some (JVal.jarr [], r)
          else (parseElems f t).map (fun p => (JVal.jarr p.1, p.2))
      else if c = 45 ∨ isDigitB c then (parseNum (c :: t)).map (fun p => (JVal.jnum p.1, p.2))
      else none

/-- Parse the comma-separated elements of a non-empty JSON array. -/
def parseElems : Nat → List Nat → Option (List JVal × List Nat)
  | 0, _ => none
  | f + 1, s =>
    match parseVal f s with
    | none => none
    | some (v, r) =>
      match skipWs r with
      | [] => none
      | c :: r2 =>
        if c = 44 then (parseElems f r2).map (fun p => (v :: p.1, p.2))
        else if c = 93 then some ([v], r2)
        else none

/-- Parse the comma-separated members of a non-empty JSON object. -/
def parseMembers : Nat → List Nat → Option (List (List Nat × JVal) × List Nat)
  | 0, _ => none
  | f + 1, s =>
    match skipWs s with
    | [] => none
    | c :: t =>
      if c = 34 then
        match parseStrBody t with
        | none => none
        | some (k, r1) =>
          match skipWs r1 with
          | [] => none
          | c2 :: r2 =>
            if c2 = 58 then
              match parseVal f r2 with
              | none => none
              | some (v, r3) =>
                match skipWs r3 with
                | [] => none
                | c3 :: r4 =>
                  if c3 = 44 then (parseMembers f r4).map (fun p => ((k, v) :: p.1, p.2))
                  else if c3 = 125 then some ([(k, v)], r4)
                  else none
            else none
      else none

end

/-- `JSON.parse`: the whole input (modulo trailing whitespace) must be one
value. The fuel `length + 4` suffices for every input the claims evaluate;
nesting one level deeper always consumes input characters. -/
def parseJsonTop (s : List Nat) : Option JVal :=
  match parseVal (s.length + 4) s with
  | some (v, rest) => if skipWs rest = [] then some v else none
  | none => none

/-! ## Cursor codec (src/api/users.js lines 138-149)

`encodeCursor(obj)` is `Buffer.from(JSON.stringify(obj), "utf8")
.toString("base64url")`; the only object the source ever passes is
`{ sortVal: ..., nameKey: ... }` with a scalar `sortVal` and a document
path string `nameKey`, which `CursorPayload` captures. `decodeCursor(s)`
base64url-decodes, utf8-decodes and `JSON.parse`s arbitrary input, with
every failure caught and turned into `null` (`Option.none` here). -/

/-- Scalar JSON values, the `sortVal` shapes the source serializes. -/
inductive JPrim where
  | pnull : JPrim
  | pbool (b : Bool) : JPrim
  | pint (n : Int) : JPrim
  | pstr (s : List Nat) : JPrim
deriving DecidableEq

/-- The object literal `{ sortVal, nameKey }` passed to `encodeCursor`. -/
structure CursorPayload where
  sortVal : JPrim
  nameKey : List Nat
deriving DecidableEq

/-- Character codes of the key `sortVal`. -/
def sortValKey : List Nat := [115, 111, 114, 116, 86, 97, 108]

/-- Character codes of the key `nameKey`. -/
def nameKeyKey : List Nat := [110, 97, 109, 101, 75, 101, 121]

/-- `JSON.stringify` of a scalar. -/
def stringifyPrim : JPrim → List Nat
  | JPrim.pnull => [110, 117, 108, 108]
  | JPrim.pbool true => [116, 114, 117, 101]
  | JPrim.pbool false => [102, 97, 108, 115, 101]
  | JPrim.pint n => stringifyInt n
  | JPrim.pstr s => stringifyStr s

/-- The scalar as a parsed JSON value. -/
def primJVal : JPrim → JVal
  | JPrim.pnull => JVal.jnull
  | JPrim.pbool b => JVal.jbool b
  | JPrim.pint n => JVal.jnum n
  | JPrim.pstr s => JVal.jstr s

/-- `JSON.stringify({ sortVal: ..., nameKey: ... })` with insertion-order
keys, exactly the object shape `encodeCursor` receives in the source. -/
def stringifyPayload (p : CursorPayload) : List Nat :=
  123 :: (stringifyStr sortValKey ++ [58] ++ stringifyPrim p.sortVal ++ [44] ++
    stringifyStr nameKeyKey ++ [58] ++ stringifyStr p.nameKey ++ [125])

/-- The payload as the JSON value `JSON.parse` returns for it. -/
def payloadJVal (p : CursorPayload) : JVal :=
  JVal.jobj [(sortValKey, primJVal p.sortVal), (nameKeyKey, JVal.jstr p.nameKey)]

/-- `encodeCursor` (src/api/users.js line 139-141). -/
def encodeCursor (p : CursorPayload) : List Nat :=
  b64Encode (utf8Encode (stringifyPayload p))

/-- `decodeCursor` (src/api/users.js line 142-149): the `try/catch
{ return null }` makes it a total function into `Option`. -/
def decodeCursor (s : List Nat) : Option JVal :=
  match b64Decode s with
  | none => none
  | some bytes =>
    match utf8Decode bytes with
    | none => none
    | some chars => parseJsonTop chars

/-- Well-formed scalar: any string content consists of code points. -/
def WfPrim : JPrim → Prop
  | JPrim.pstr s => WfStr s
  | _ => True

/-- Well-formed payload: both strings consist of code points. -/
def WfPayload (p : CursorPayload) : Prop := WfPrim p.sortVal ∧ WfStr p.nameKey

/-! ### String round trip -/

theorem skipWs_cons {c : Nat} (h : isWsB c = false) (t : List Nat) :
    skipWs (c :: t) = c :: t := by
  simp [skipWs, List.dropWhile_cons, h]

theorem parseStrBody_escapeChar (c : Nat) (rest : List Nat) :
    parseStrBody (escapeChar c ++ rest) = mapConsFst c (parseStrBody rest) := by
  unfold escapeChar
  by_cases h34 : c = 34
  · subst h34
    rw [if_pos rfl, List.cons_append, List.cons_append, List.nil_append, parseStrBody.eq_def]
    simp
  · rw [if_neg h34]
    by_cases h92 : c = 92
    · subst h92
      rw [if_pos rfl, List.cons_append, List.cons_append, List.nil_append, parseStrBody.eq_def]
      simp
    · rw [if_neg h92]
      by_cases h8 : c = 8
      · subst h8
        rw [if_pos rfl, List.cons_append, List.cons_append, List.nil_append, parseStrBody.eq_def]
        simp
      · rw [if_neg h8]
        by_cases h9 : c = 9
        · subst h9
          rw [if_pos rfl, List.cons_append, List.cons_append, List.nil_append, parseStrBody.eq_def]
          simp
        · rw [if_neg h9]
          by_cases h10 : c = 10
          · subst h10
            rw [if_pos rfl, List.cons_append, List.cons_append, List.nil_append,
              parseStrBody.eq_def]
            simp
          · rw [if_neg h10]
            by_cases h12 : c = 12
            · subst h12
              rw [if_pos rfl, List.cons_append, List.cons_append, List.nil_append,
                parseStrBody.eq_def]
              simp
            · rw [if_neg h12]
              by_cases h13 : c = 13
              · subst h13
                rw [if_pos rfl, List.cons_append, List.cons_append, List.nil_append,
                  parseStrBody.eq_def]
                simp
              · rw [if_neg h13]
                by_cases hlt : c < 32
                · rw [if_pos hlt]
                  have hdiv : c / 16 < 10 := by omega
                  have hhi : hexVal (hexDigitChar (c / 16)) = some (c / 16) := by
                    unfold hexDigitChar
                    rw [if_pos hdiv]
                    unfold hexVal
                    have hc0 : 48 ≤ 48 + c / 16 ∧ 48 + c / 16 ≤ 57 := by omega
                    rw [if_pos hc0]
                    simp only [Option.some.injEq]
                    omega
                  have hlo : hexVal (hexDigitChar (c % 16)) = some (c % 16) := by
                    by_cases hm : c % 16 < 10
                    · unfold hexDigitChar
                      rw [if_pos hm]
                      unfold hexVal
                      have hc0 : 48 ≤ 48 + c % 16 ∧ 48 + c % 16 ≤ 57 := by omega
                      rw [if_pos hc0]
                      simp only [Option.some.injEq]
                      omega
                    · unfold hexDigitChar
                      rw [if_neg hm]
                      unfold hexVal
                      have hc1 : ¬ (48 ≤ 87 + c % 16 ∧ 87 + c % 16 ≤ 57) := by
                        omega
                      have hc2 : 97 ≤ 87 + c % 16 ∧ 87 + c % 16 ≤ 102 := by
                        omega
                      rw [if_neg hc1, if_pos hc2]
                      simp only [Option.some.injEq]
                      omega
                  simp only [List.cons_append, List.nil_append]
                  rw [parseStrBody.eq_def]
                  simp only [show hexVal 48 = some 0 from rfl, hhi, hlo]
                  simp
                  have hc : c / 16 * 16 + c % 16 = c := by omega
                  rw [hc]
                · rw [if_neg hlt]
                  simp only [List.cons_append, List.nil_append]
                  rw [parseStrBody.eq_def]
                  simp [h34, h92]

theorem parseStrBody_stringify (s : List Nat) : ∀ (t : List Nat),
    parseStrBody ((s.map escapeChar).flatten ++ 34 :: t) = some (s, t) := by
  induction s with
  | nil =>
      intro t
      simp only [List.map_nil, List.flatten_nil, List.nil_append]
      rw [parseStrBody.eq_def]
      simp
  | cons c cs ih =>
      intro t
      have : ((c :: cs).map escapeChar).flatten = escapeChar c ++ (cs.map escapeChar).flatten := by
        simp
      rw [this, List.append_assoc, parseStrBody_escapeChar, ih t]
      rfl

/-! ### Number round trip -/

theorem natDigitsRev_lt : ∀ (f n : Nat), ∀ d ∈ natDigitsRev f n, d < 10 := by
  intro f
  induction f with
  | zero => intro n d hd; simp [natDigitsRev] at hd
  | succ f ih =>
      intro n d hd
      unfold natDigitsRev at hd
      split at hd
      · simp at hd; omega
      · rcases List.mem_cons.mp hd with h | h
        · omega
        · exact ih _ d h

theorem natDigitsRev_val : ∀ (f n : Nat), n < f →
    (natDigitsRev f n).foldr (fun d a => d + 10 * a) 0 = n := by
  intro f
  induction f with
  | zero => omega
  | succ f ih =>
      intro n hn
      unfold natDigitsRev
      split
      · simp
      · rw [List.foldr_cons, ih (n / 10) (by omega)]
        omega

theorem natDigitsRev_ne_nil (f n : Nat) : natDigitsRev (f + 1) n ≠ [] := by
  unfold natDigitsRev
  split <;> simp

theorem natFromDigits_map_reverse (ds : List Nat) :
    natFromDigits ((ds.map (· + 48)).reverse) = ds.foldr (fun d a => d + 10 * a) 0 := by
  induction ds with
  | nil => rfl
  | cons d t ih =>
      unfold natFromDigits at ih ⊢
      rw [List.map_cons, List.reverse_cons, List.foldl_append, ih, List.foldr_cons]
      simp
      omega

theorem natFromDigits_stringifyNat (n : Nat) : natFromDigits (stringifyNat n) = n := by
  unfold stringifyNat
  rw [natFromDigits_map_reverse, natDigitsRev_val (n + 1) n (by omega)]

theorem stringifyNat_digits (n : Nat) : ∀ d ∈ stringifyNat n, isDigitB d = true := by
  intro d hd
  unfold stringifyNat at hd
  rw [List.mem_reverse, List.mem_map] at hd
  obtain ⟨e, he, rfl⟩ := hd
  have := natDigitsRev_lt (n + 1) n e he
  simp [isDigitB]
  omega

theorem stringifyNat_ne_nil (n : Nat) : stringifyNat n ≠ [] := by
  unfold stringifyNat
  simp
  exact natDigitsRev_ne_nil n n

theorem stringifyNat_head (n : Nat) :
    ∃ hd tl, stringifyNat n = hd :: tl ∧ isDigitB hd = true := by
  cases h : stringifyNat n with
  | nil => exact absurd h (stringifyNat_ne_nil n)
  | cons hd tl =>
      refine ⟨hd, tl, rfl, ?_⟩
      have : hd ∈ stringifyNat n := by rw [h]; simp
      exact stringifyNat_digits n hd this

/-- The first character after a serialized numeral may not extend it:
not a digit and not `.`/`e`/`E`. -/
def NumBoundary : List Nat → Prop
  | [] => True
  | c :: _ => isDigitB c = false ∧ c ≠ 46 ∧ c ≠ 101 ∧ c ≠ 69

theorem takeWhile_all_append {p : Nat → Bool} : ∀ (l t : List Nat),
    (∀ d ∈ l, p d = true) → (∀ c tl, t = c :: tl → p c = false) →
    (l ++ t).takeWhile p = l ∧ (l ++ t).dropWhile p = t := by
  intro l
  induction l with
  | nil =>
      intro t _ ht
      cases t with
      | nil => simp
      | cons c tl => simp [List.takeWhile_cons, List.dropWhile_cons, ht c tl rfl]
  | cons d l' ih =>
      intro t hl ht
      have hd : p d = true := hl d (by simp)
      have := ih t (fun e he => hl e (by simp [he])) ht
      simp [List.takeWhile_cons, List.dropWhile_cons, hd, this.1, this.2]

theorem parseNatNum_stringifyNat (n : Nat) (t : List Nat) (ht : NumBoundary t) :
    parseNatNum (stringifyNat n ++ t) = some (n, t) := by
  have hnb : ∀ c tl, t = c :: tl → isDigitB c = false := by
    intro c tl htl
    rw [htl] at ht
    exact ht.1
  have htd := takeWhile_all_append (stringifyNat n) t (stringifyNat_digits n) hnb
  unfold parseNatNum
  rw [htd.1, htd.2, if_neg (stringifyNat_ne_nil n)]
  cases t with
  | nil => rw [natFromDigits_stringifyNat]
  | cons c tl =>
      obtain ⟨hdig2, h1, h2, h3⟩ := ht
      have hno : ¬ (c = 46 ∨ c = 101 ∨ c = 69) := by tauto
      show (if c = 46 ∨ c = 101 ∨ c = 69 then none
        else some (natFromDigits (stringifyNat n), c :: tl)) = some (n, c :: tl)
      rw [if_neg hno, natFromDigits_stringifyNat]

theorem parseNum_stringifyInt (m : Int) (t : List Nat) (ht : NumBoundary t) :
    parseNum (stringifyInt m ++ t) = some (m, t) := by
  cases m with
  | ofNat n =>
      obtain ⟨hd, tl, hshape, hdig⟩ := stringifyNat_head n
      have h45 : ¬ hd = 45 := by
        simp [isDigitB] at hdig
        omega
      rw [show stringifyInt (Int.ofNat n) = stringifyNat n from rfl, hshape, List.cons_append,
        parseNum, if_neg h45, ← List.cons_append, ← hshape, parseNatNum_stringifyNat n t ht]
      rfl
  | negSucc k =>
      rw [show stringifyInt (Int.negSucc k) = 45 :: stringifyNat (k + 1) from rfl,
        List.cons_append, parseNum, if_pos rfl, parseNatNum_stringifyNat (k + 1) t ht]
      simp [Int.negSucc_eq]

theorem stringifyInt_head (m : Int) :
    ∃ hd tl, stringifyInt m = hd :: tl ∧ (hd = 45 ∨ (48 ≤ hd ∧ hd ≤ 57)) := by
  cases m with
  | ofNat n =>
      obtain ⟨hd, tl, hshape, hdig⟩ := stringifyNat_head n
      refine ⟨hd, tl, hshape, Or.inr ?_⟩
      simp [isDigitB] at hdig
      exact hdig
  | negSucc k =>
      exact ⟨45, stringifyNat (k + 1), rfl, Or.inl rfl⟩

theorem parseVal_stringifyPrim (q : JPrim) (f : Nat) (t : List Nat) (ht : NumBoundary t) :
    parseVal (f + 1) (stringifyPrim q ++ t) = some (primJVal q, t) := by
  cases q with
  | pnull =>
      show parseVal (f + 1) (110 :: 117 :: 108 :: 108 :: t) = some (JVal.jnull, t)
      simp only [parseVal]
      rw [skipWs_cons (by decide)]
      simp
  | pbool b =>
      cases b with
      | true =>
          show parseVal (f + 1) (116 :: 114 :: 117 :: 101 :: t) = some (JVal.jbool true, t)
          simp only [parseVal]
          rw [skipWs_cons (by decide)]
          simp
      | false =>
          show parseVal (f + 1) (102 :: 97 :: 108 :: 115 :: 101 :: t) = some (JVal.jbool false, t)
          simp only [parseVal]
          rw [skipWs_cons (by decide)]
          simp
  | pint n =>
      obtain ⟨hd, tl, hshape, hdr⟩ := stringifyInt_head n
      have hws : isWsB hd = false := by
        simp [isWsB]
        omega
      have h110 : ¬ hd = 110 := by omega
      have h116 : ¬ hd = 116 := by omega
      have h102 : ¬ hd = 102 := by omega
      have h34 : ¬ hd = 34 := by omega
      have h123 : ¬ hd = 123 := by omega
      have h91 : ¬ hd = 91 := by omega
      have hnum : hd = 45 ∨ isDigitB hd = true := by
        rcases hdr with h | h
        · exact Or.inl h
        · right
          simp [isDigitB]
          omega
      show parseVal (f + 1) (stringifyInt n ++ t) = some (JVal.jnum n, t)
      rw [hshape, List.cons_append]
      simp only [parseVal]
      rw [skipWs_cons hws]
      simp only [h110, h116, h102, h34, h123, h91, hnum, if_false, if_true, ite_true, ite_false]
      simp [h110, h116, h102, h34, h123, h91, hnum]
      rw [← List.cons_append, ← hshape, parseNum_stringifyInt n t ht]
  | pstr s =>
      show parseVal (f + 1) (stringifyStr s ++ t) = some (JVal.jstr s, t)
      rw [show stringifyStr s ++ t = 34 :: ((s.map escapeChar).flatten ++ 34 :: t) by
        simp [stringifyStr]]
      simp only [parseVal]
      rw [skipWs_cons (by decide)]
      simp [parseStrBody_stringify]

theorem parseVal_stringifyStr (s : List Nat) (f : Nat) (t : List Nat) (ht : NumBoundary t) :
    parseVal (f + 1) (stringifyStr s ++ t) = some (JVal.jstr s, t) :=
  parseVal_stringifyPrim (JPrim.pstr s) f t ht

theorem parseVal_strExpanded (s : List Nat) (f : Nat) (t : List Nat) :
    parseVal (f + 1) (34 :: ((s.map escapeChar).flatten ++ 34 :: t)) =
      some (JVal.jstr s, t) := by
  simp only [parseVal]
  rw [skipWs_cons (by decide)]
  simp [parseStrBody_stringify]

theorem parseVal_stringifyPayload (p : CursorPayload) (g : Nat) (t : List Nat) :
    parseVal (g + 4) (stringifyPayload p ++ t) = some (payloadJVal p, t) := by
  simp only [parseVal]
  simp [parseMembers, stringifyPayload, stringifyStr, skipWs_cons, parseStrBody_stringify,
    parseVal_stringifyPrim, parseVal_strExpanded, NumBoundary, isWsB, isDigitB, payloadJVal]

/-! ### Well-formedness of serialized payloads -/

theorem wf_escapeChar {c : Nat} (hc : c < 1114112) : ∀ d ∈ escapeChar c, d < 1114112 := by
  intro d hd
  have hhd : hexDigitChar (c / 16) < 1114112 := by
    unfold hexDigitChar
    split <;> omega
  have hld : hexDigitChar (c % 16) < 1114112 := by
    unfold hexDigitChar
    split <;> omega
  unfold escapeChar at hd
  repeat' split at hd
  all_goals simp at hd
  all_goals omega

theorem wf_stringifyStr {s : List Nat} (hs : WfStr s) : WfStr (stringifyStr s) := by
  intro c hc
  unfold stringifyStr at hc
  rcases List.mem_cons.mp hc with h | h
  · omega
  · rcases List.mem_append.mp h with h2 | h2
    · rw [List.mem_flatten] at h2
      obtain ⟨l, hl, hcl⟩ := h2
      rw [List.mem_map] at hl
      obtain ⟨e, he, rfl⟩ := hl
      exact wf_escapeChar (hs e he) c hcl
    · simp at h2; omega

theorem wf_stringifyNat (n : Nat) : WfStr (stringifyNat n) := by
  intro c hc
  have := stringifyNat_digits n c hc
  simp [isDigitB] at this
  omega

theorem wf_stringifyInt (m : Int) : WfStr (stringifyInt m) := by
  intro c hc
  cases m with
  | ofNat n => exact wf_stringifyNat n c hc
  | negSucc k =>
      rcases List.mem_cons.mp hc with h | h
      · omega
      · exact wf_stringifyNat (k + 1) c h

theorem wf_stringifyPrim {q : JPrim} (hq : WfPrim q) : WfStr (stringifyPrim q) := by
  cases q with
  | pnull => intro c hc; simp [stringifyPrim] at hc; omega
  | pbool b =>
      cases b <;> · intro c hc; simp [stringifyPrim] at hc; omega
  | pint n => exact wf_stringifyInt n
  | pstr s => exact wf_stringifyStr hq

theorem wf_stringifyPayload {p : CursorPayload} (hp : WfPayload p) :
    WfStr (stringifyPayload p) := by
  have hkey1 : WfStr sortValKey := by intro c hc; simp [sortValKey] at hc; omega
  have hkey2 : WfStr nameKeyKey := by intro c hc; simp [nameKeyKey] at hc; omega
  intro c hc
  unfold stringifyPayload at hc
  rcases List.mem_cons.mp hc with h | h
  · omega
  · simp only [List.append_assoc, List.mem_append, List.mem_cons, List.mem_singleton] at h
    rcases h with h | h | h | h | h | h | h | h
    · exact wf_stringifyStr hkey1 c h
    · simp at h; omega
    · exact wf_stringifyPrim hp.1 c h
    · simp at h; omega
    · exact wf_stringifyStr hkey2 c h
    · simp at h; omega
    · exact wf_stringifyStr hp.2 c h
    · simp at h; omega

/-! ### The cursor codec round trip -/

theorem parseJsonTop_stringifyPayload (p : CursorPayload) :
    parseJsonTop (stringifyPayload p) = some (payloadJVal p) := by
  unfold parseJsonTop
  have h := parseVal_stringifyPayload p (stringifyPayload p).length []
  rw [List.append_nil] at h
  rw [h]
  rfl

/-- Cursor round trip: decoding an encoded payload yields exactly the JSON
object that was serialized — `decode(encode(x)) == x`. -/
theorem decodeCursor_encodeCursor {p : CursorPayload} (hp : WfPayload p) :
    decodeCursor (encodeCursor p) = some (payloadJVal p) := by
  unfold decodeCursor encodeCursor
  rw [b64Decode_b64Encode _ (utf8Encode_bytes (wf_stringifyPayload hp))]
  show (match utf8Decode (utf8Encode (stringifyPayload p)) with
    | none => none
    | some chars => parseJsonTop chars) = some (payloadJVal p)
  rw [utf8Decode_utf8Encode _ (wf_stringifyPayload hp)]
  show parseJsonTop (stringifyPayload p) = some (payloadJVal p)
  exact parseJsonTop_stringifyPayload p

/-! ## JS value helpers for the handler embedding -/

/-- JS truthiness of a JSON value: `null`, `false`, `0` and `""` are falsy. -/
def truthy : JVal → Bool
  | JVal.jnull => false
  | JVal.jbool b => b
  | JVal.jnum n => decide (n ≠ 0)
  | JVal.jstr s => decide (s ≠ [])
  | JVal.jarr _ => true
  | JVal.jobj _ => true

/-- The one JS exception kind the cursor guard can raise. -/
inductive JsError where
  | typeError : JsError
deriving DecidableEq

/-- The JS `in` operator: own-property membership on objects; `false` on
arrays for the non-index keys used here; a TypeError on primitives. -/
def jsHasProp (k : List Nat) : JVal → Except JsError Bool
  | JVal.jobj fs => Except.ok (fs.any (fun f => decide (f.1 = k)))
  | JVal.jarr _ => Except.ok false
  | _ => Except.error JsError.typeError

/-- JS property read on a decoded JSON value (`undefined` as `none`). -/
def jsGetProp (k : List Nat) : JVal → Option JVal
  | JVal.jobj fs => (fs.find? (fun f => decide (f.1 = k))).map (·.2)
  | _ => none

/-- Character codes of a Lean string (used to spell JS string literals). -/
def strCodes (s : String) : List Nat := s.data.map Char.toNat

/-! ## Store query model (group scope)

A built query records its `orderBy` chain, its limit and its resume
position; the store itself is abstract (§6 of the spec). -/

inductive SortDir where
  | asc : SortDir
  | desc : SortDir
deriving DecidableEq

/-- A `startAfter` resume position: the compound `(sortValue, path)` form or
the path-only form. -/
inductive StartAfterPos where
  | pairPos (sortVal : JVal) (nameKey : List Nat) : StartAfterPos
  | pathPos (nameKey : List Nat) : StartAfterPos

structure GroupQuery where
  orderBys : List (String × SortDir)
  limitN : Int
  startAfter : Option StartAfterPos

/-- src/api/users.js lines 255 and 280: the group query always chains
`orderBy(sortField).orderBy("__name__")`. -/
def buildGroupQueryUsersJs (sortField : String) (dir : SortDir) (pageSize : Int) : GroupQuery :=
  { orderBys := [(sortField, dir), ("__name__", dir)], limitN := pageSize, startAfter := none }

/-- src/unnamed/part_001 lines 220-224 (`buildGroupQuery`): the `__name__`
tie-break is added only when the sort field is not `__name__` itself. -/
def buildGroupQueryPart001 (sortField : String) (dir : SortDir) (pageSize : Int) : GroupQuery :=
  { orderBys :=
      if sortField ≠ "__name__" then [(sortField, dir), ("__name__", dir)]
      else [(sortField, dir)],
    limitN := pageSize, startAfter := none }

/-- src/api/users.js line 286: the decoded cursor is always applied as the
`(cur.sortVal, db.doc(cur.nameKey))` pair, whatever the sort field. -/
def cursorStartAfterUsersJs (sortField : String) (sortVal : JVal) (nameKey : List Nat) :
    StartAfterPos :=
  StartAfterPos.pairPos sortVal nameKey

/-- src/unnamed/part_001 lines 268-271: path alone when sorting by
`__name__`, else the `(cur.sortVal ?? null, path)` pair. -/
def cursorStartAfterPart001 (sortField : String) (sortVal : Option JVal) (nameKey : List Nat) :
    StartAfterPos :=
  if sortField = "__name__" then StartAfterPos.pathPos nameKey
  else StartAfterPos.pairPos (sortVal.getD JVal.jnull) nameKey

/-- Split a path at `/` (code 47) into segments. -/
def splitOnSlash : List Nat → List (List Nat)
  | [] => [[]]
  | c :: t =>
    if c = 47 then [] :: splitOnSlash t
    else
      match splitOnSlash t with
      | [] => [[c]]
      | s :: rest => (c :: s) :: rest

/-- Firestore `db.doc(path)` accepts an even number of non-empty slash
segments and throws otherwise. -/
def validDocPath (path : List Nat) : Bool :=
  (splitOnSlash path).length % 2 == 0 && (splitOnSlash path).all (fun s => decide (s ≠ []))

/-- src/api/users.js lines 282-294: apply an incoming `pageCursor` to the
group-scope query. `cur && "sortVal" in cur && "nameKey" in cur`: the `in`
operator on a truthy decoded primitive throws a TypeError, which is NOT
inside the inner `try` (that only wraps `q.startAfter(...)`), so it
escapes to the handler's outer catch. -/
def applyPageCursorUsersJs (pageCursor : List Nat) (q : GroupQuery) :
    Except JsError GroupQuery :=
  if pageCursor = [] then Except.ok q
  else
    match decodeCursor pageCursor with
    | none => Except.ok q
    | some cur =>
      if truthy cur then
        match jsHasProp sortValKey cur with
        | Except.error e => Except.error e
        | Except.ok h1 =>
          if h1 then
            match jsHasProp nameKeyKey cur with
            | Except.error e => Except.error e
            | Except.ok h2 =>
              if h2 then
                match jsGetProp nameKeyKey cur with
                | some (JVal.jstr path) =>
                  if validDocPath path then
                    Except.ok { q with startAfter := some (StartAfterPos.pairPos
                      ((jsGetProp sortValKey cur).getD JVal.jnull) path) }
                  else Except.ok q
                | _ => Except.ok q
              else Except.ok q
          else Except.ok q
      else Except.ok q

/-- HTTP status of the group-scope single-page request as determined by the
cursor-application step (the rest of the request path is fault-free): 200
when the step returns, 500 when it throws into the outer catch. -/
def groupScopeCursorStatus (pageCursor : List Nat) (q : GroupQuery) : Nat :=
  match applyPageCursorUsersJs pageCursor q with
  | Except.ok _ => 200
  | Except.error _ => 500

/-! ## Documents and outgoing cursors (claim C3) -/

structure SnapDoc where
  id : String
  path : String
  fields : List (String × JPrim)
deriving DecidableEq

/-- `doc.get(field)` on the stored fields. -/
def docGet (d : SnapDoc) (field : String) : Option JPrim :=
  (d.fields.find? (fun f => decide (f.1 = field))).map (·.2)

/-- src/api/users.js lines 239-241: `nextPageToken` is the last document id
when the page came back full and non-empty. -/
def nextPageTokenSingle (pageSize : Int) (docs : List SnapDoc) : Option String :=
  if (docs.length : Int) = pageSize ∧ docs ≠ [] then (docs.getLast?).map (·.id)
  else none

/-- src/api/users.js lines 305-313: the group-scope outgoing cursor. -/
def nextPageCursorGroup (pageSize : Int) (sortField : String) (docs : List SnapDoc) :
    Option (List Nat) :=
  if (docs.length : Int) = pageSize ∧ docs ≠ [] then
    match docs.getLast? with
    | some last => some (encodeCursor
        { sortVal := (docGet last sortField).getD JPrim.pnull,
          nameKey := strCodes last.path })
    | none => none
  else none

/-- JS `Boolean(x)` for a nullable string. -/
def jsTruthyOptStr : Option String → Bool
  | none => false
  | some s => decide (s ≠ "")

/-- JS `Boolean(x)` for a nullable encoded cursor. -/
def jsTruthyOptList : Option (List Nat) → Bool
  | none => false
  | some s => decide (s ≠ [])

/-- src/unnamed/part_002 lines 259 and 243: `lastDoc` is the last document
of the page (or null), and `nextPageToken = fetchAll ? null : lastDoc.id`
— emitted for any non-empty page, full or short. -/
def nextPageTokenPart002 (fetchAll : Bool) (docs : List SnapDoc) : Option String :=
  if fetchAll then none else (docs.getLast?).map (·.id)

/-- src/unnamed/part_002 line 265: `hasMore: nextPageToken ? true : false`. -/
def hasMorePart002 (tok : Option String) : Bool := jsTruthyOptStr tok

/-! ## Accumulate-all loops (claim C7) -/

/-- The hard page ceiling of both accumulate-all loops. -/
def MAX_PAGES : Nat := 500

/-- src/api/users.js lines 196-214: the single-scope accumulate-all loop.
`store pos` is the page the ordered-limited query returns when resumed
after `pos`. Returns the accumulated documents and pages fetched. -/
def accumSingleAux (store : Option SnapDoc → List SnapDoc) (pageSize : Int) :
    Nat → Option SnapDoc → List SnapDoc × Nat
  | 0, _ => ([], 0)
  | f + 1, cursorDoc =>
    if store cursorDoc = [] then ([], 1)
    else if ((store cursorDoc).length : Int) < pageSize then (store cursorDoc, 1)
    else
      match (store cursorDoc).getLast? with
      | none => (store cursorDoc, 1)
      | some last =>
        (store cursorDoc ++ (accumSingleAux store pageSize f (some last)).1,
         (accumSingleAux store pageSize f (some last)).2 + 1)

/-- The single-scope accumulate-all entry point (`MAX_PAGES` iterations). -/
def accumSingle (store : Option SnapDoc → List SnapDoc) (pageSize : Int) :
    List SnapDoc × Nat :=
  accumSingleAux store pageSize MAX_PAGES none

/-- src/api/users.js lines 250-275: the group-scope accumulate-all loop with
its `{ sortVal: last.get(sortField) ?? null, nameKey: last.ref.path }`
compound cursor. -/
def accumGroupAux (store : Option (JPrim × String) → List SnapDoc) (sortField : String)
    (pageSize : Int) : Nat → Option (JPrim × String) → List SnapDoc × Nat
  | 0, _ => ([], 0)
  | f + 1, cursorVals =>
    if store cursorVals = [] then ([], 1)
    else if ((store cursorVals).length : Int) < pageSize then (store cursorVals, 1)
    else
      match (store cursorVals).getLast? with
      | none => (store cursorVals, 1)
      | some last =>
        (store cursorVals ++ (accumGroupAux store sortField pageSize f
           (some ((docGet last sortField).getD JPrim.pnull, last.path))).1,
         (accumGroupAux store sortField pageSize f
           (some ((docGet last sortField).getD JPrim.pnull, last.path))).2 + 1)

/-- The group-scope accumulate-all entry point. -/
def accumGroup (store : Option (JPrim × String) → List SnapDoc) (sortField : String)
    (pageSize : Int) : List SnapDoc × Nat :=
  accumGroupAux store sortField pageSize MAX_PAGES none

/-- Response metadata the accumulate-all path produces: the handler reaches
`res.status(200)` and both outgoing cursors stay null, so `hasMore` is
`Boolean(null) = false` — no truncation signal exists in the payload. -/
structure ResponseMeta where
  status : Nat
  hasMore : Bool
  returnedCount : Nat
deriving DecidableEq

/-- src/api/users.js lines 185-214 and 330-363 for `all=1`, single scope:
`nextPageToken` is never assigned, the payload is assembled and returned
with HTTP 200. -/
def fetchAllResponseSingle (store : Option SnapDoc → List SnapDoc) (pageSize : Int) :
    ResponseMeta :=
  { status := 200,
    hasMore := jsTruthyOptStr none,
    returnedCount := (accumSingle store pageSize).1.length }

/-- The same for group scope (`nextPageCursor` never assigned when `all=1`). -/
def fetchAllResponseGroup (store : Option (JPrim × String) → List SnapDoc)
    (sortField : String) (pageSize : Int) : ResponseMeta :=
  { status := 200,
    hasMore := jsTruthyOptList none,
    returnedCount := (accumGroup store sortField pageSize).1.length }

/-! ## Record mapper and projection (claims C8 and C1) -/

/-- A JS object as an ordered association list with unique keys. -/
abbrev UObj := List (String × JPrim)

/-- JS property read (first occurrence; keys are unique). -/
def objGet (o : UObj) (k : String) : Option JPrim :=
  (o.find? (fun f => decide (f.1 = k))).map (·.2)

/-- JS property write: replace in place, or append when absent — the
semantics of a later key in an object literal overriding a spread. -/
def objSet : UObj → String → JPrim → UObj
  | [], k, v => [(k, v)]
  | f :: rest, k, v => if f.1 = k then (k, v) :: rest else f :: objSet rest k v

/-- JS truthiness of a field value. -/
def truthyP : JPrim → Bool
  | JPrim.pnull => false
  | JPrim.pbool b => b
  | JPrim.pint n => decide (n ≠ 0)
  | JPrim.pstr s => decide (s ≠ [])

/-- JS `a || b` where `a` is an optionally-present field. -/
def jsOr (a : Option JPrim) (b : JPrim) : JPrim :=
  match a with
  | some v => if truthyP v then v else b
  | none => b

/-- JS `a ?? b` where `a` is an optionally-present field. -/
def jsNullish (a : Option JPrim) (b : JPrim) : JPrim :=
  match a with
  | some v => if v = JPrim.pnull then b else v
  | none => b

/-- Apply object-literal overrides left to right onto spread data. -/
def applyOverrides : UObj → List (String × JPrim) → UObj
  | data, [] => data
  | data, (k, v) :: rest => applyOverrides (objSet data k v) rest

/-- The override keys of the mapping step, in source order. -/
def mapOverrideKeys : List String :=
  ["id", "email", "name", "phone", "source", "type", "polo", "createdAt",
   "agCount", "histTotal", "histPend"]

/-- src/api/users.js lines 113-136 (`mapDocToUser`): spread the raw document
data, then override the public attributes, with the ordered `||` fallbacks
across naming conventions. Timestamp normalization (`normalizeCreatedAt`,
Date/ISO formatting) is abstracted as `normCA`. -/
def mapDocToUser (normCA : Option JPrim → JPrim) (agCount histTotal histPend : Nat)
    (docId : String) (data : UObj) : UObj :=
  applyOverrides data
    [("id", JPrim.pstr (strCodes docId)),
     ("email", jsOr (objGet data "email") JPrim.pnull),
     ("name", jsOr (objGet data "name") (jsOr (objGet data "userName")
       (jsOr (objGet data "displayName") JPrim.pnull))),
     ("phone", jsOr (objGet data "phone") (jsOr (objGet data "telefone") JPrim.pnull)),
     ("source", jsOr (objGet data "source") (jsOr (objGet data "origem") JPrim.pnull)),
     ("type", jsOr (objGet data "type") JPrim.pnull),
     ("polo", jsOr (objGet data "polo") JPrim.pnull),
     ("createdAt", normCA (objGet data "createdAt")),
     ("agCount", JPrim.pint agCount),
     ("histTotal", JPrim.pint histTotal),
     ("histPend", JPrim.pint histPend)]

/-- The public projection keys, in source order. -/
def projFields : List String :=
  ["id", "email", "name", "phone", "source", "createdAt", "agCount", "histTotal",
   "histPend", "type", "polo"]

/-- src/api/users.js lines 64-78 (`projectUser`): the response shape. -/
def projectUser (u : UObj) : UObj :=
  [("id", (objGet u "id").getD JPrim.pnull),
   ("email", jsNullish (objGet u "email") JPrim.pnull),
   ("name", jsNullish (objGet u "name") JPrim.pnull),
   ("phone", jsNullish (objGet u "phone") JPrim.pnull),
   ("source", jsNullish (objGet u "source") JPrim.pnull),
   ("createdAt", jsNullish (objGet u "createdAt") JPrim.pnull),
   ("agCount", jsNullish (objGet u "agCount") (JPrim.pint 0)),
   ("histTotal", jsNullish (objGet u "histTotal") (JPrim.pint 0)),
   ("histPend", jsNullish (objGet u "histPend") (JPrim.pint 0)),
   ("type", jsNullish (objGet u "type") JPrim.pnull),
   ("polo", jsNullish (objGet u "polo") JPrim.pnull)]

/-- ASCII lowercase (the model of `toLowerCase` on the searched fields). -/
def asciiLower (c : Nat) : Nat := if 65 ≤ c ∧ c ≤ 90 then c + 32 else c

/-- `String(v || "").toLowerCase()` of a searched field. -/
def filterFieldText (v : Option JPrim) : List Nat :=
  match jsOr v (JPrim.pstr []) with
  | JPrim.pstr s => s.map asciiLower
  | JPrim.pint n => stringifyInt n
  | JPrim.pbool true => strCodes "true"
  | JPrim.pbool false => strCodes "false"
  | JPrim.pnull => strCodes "null"

/-- src/api/users.js lines 320-325: the in-memory substring post-filter. -/
def matchesFilter (qtext : List Nat) (u : UObj) : Bool :=
  [objGet u "email", objGet u "name", objGet u "phone", objGet u "source"].any
    (fun v => decide (qtext <:+: filterFieldText v))

/-- src/api/users.js lines 320-331: filter, then project into the payload. -/
def responseItems (qtext : List Nat) (items : List UObj) : List UObj :=
  (if qtext = [] then items else items.filter (matchesFilter qtext)).map projectUser

/-! ## Stat fan-out (claim C1) -/

structure Stats where
  agCount : Nat
  histTotal : Nat
  histPend : Nat
deriving DecidableEq

/-- Outcome of one auxiliary count query: a snapshot size or a store error
(missing index, transient failure). -/
abbrev QueryOutcome := Except Unit Nat

/-- `Promise.all` of the three stat queries: rejects if any one rejects. -/
def promiseAll3 (a b c : QueryOutcome) : Except Unit (Nat × Nat × Nat) := do
  let x ← a
  let y ← b
  let z ← c
  pure (x, y, z)

/-- src/api/users.js lines 92-111 (`fetchStatsForUser`): the three counts are
awaited through a single `Promise.all` inside one try/catch; the catch
logs and leaves all three counters at their initial 0. -/
def fetchStatsForUser (a b c : QueryOutcome) : Stats :=
  match promiseAll3 a b c with
  | Except.ok (x, y, z) => { agCount := x, histTotal := y, histPend := z }
  | Except.error _ => { agCount := 0, histTotal := 0, histPend := 0 }

/-- src/api/users.js lines 207-209 / 234-236: every page document is mapped
(with its per-user stat outcomes) and pushed — stat failures never drop a
record. -/
def mapPage (statsOracle : String → QueryOutcome × QueryOutcome × QueryOutcome)
    (normCA : Option JPrim → JPrim) (docs : List (String × UObj)) : List UObj :=
  docs.map (fun d =>
    let o := statsOracle d.1
    let st := fetchStatsForUser o.1 o.2.1 o.2.2
    mapDocToUser normCA st.agCount st.histTotal st.histPend d.1 d.2)

/-! ## Method gate and catch blocks (claim C9) -/

/-- A JS exception object (only its message is observable here). -/
structure ErrObj where
  message : List Nat
deriving DecidableEq

abbrev Body := List (String × JPrim)

/-- src/api/users.js lines 151-155 and 363-367: OPTIONS is handled by CORS
(204), non-GET is 405 with an opaque code, an unhandled fault is 500 with
an opaque code, and a successful run returns its payload with 200. -/
def usersHandlerMeta (method : String) (run : Except ErrObj Body) : Nat × Body :=
  if method = "OPTIONS" then (204, [])
  else if method ≠ "GET" then (405, [("error", JPrim.pstr (strCodes "method_not_allowed"))])
  else
    match run with
    | Except.ok b => (200, b)
    | Except.error _ => (500, [("error", JPrim.pstr (strCodes "server_error"))])

/-- src/api/agendamentos.js lines 40-83: same gate, but the catch block
returns `{ error: "server_error", message: error.message }`. -/
def agendamentosHandlerMeta (method : String) (run : Except ErrObj Body) : Nat × Body :=
  if method = "OPTIONS" then (204, [])
  else if method ≠ "GET" then (405, [("error", JPrim.pstr (strCodes "method_not_allowed"))])
  else
    match run with
    | Except.ok b => (200, b)
    | Except.error e => (500, [("error", JPrim.pstr (strCodes "server_error")),
                               ("message", JPrim.pstr e.message)])

/-! ## Sort policy (claim C6) -/

/-- The sort-field whitelist (src/api/users.js line 89). -/
def ALLOWED_SORT : List String := ["createdAt", "__name__", "email", "name"]

/-- src/api/users.js lines 165-166: `(req.query.sortField || "createdAt")`
(absent or empty falls back to `"createdAt"`), then the whitelist check
with default `"__name__"`. -/
def sortFieldUsersJs (param : Option String) : String :=
  let requested := match param with
    | none => "createdAt"
    | some s => if s = "" then "createdAt" else s
  if requested ∈ ALLOWED_SORT then requested else "__name__"

/-- src/unnamed/part_000 lines 148-149: identical but the fallback for an
absent parameter is `"__name__"`. -/
def sortFieldPart000 (param : Option String) : String :=
  let requested := match param with
    | none => "__name__"
    | some s => if s = "" then "__name__" else s
  if requested ∈ ALLOWED_SORT then requested else "__name__"

/-! ## Page-size clamp (claim C10) -/

/-- Maximal leading digit run as a number. -/
def parseIntDigits (cs : List Char) : Option Nat :=
  let ds := cs.takeWhile (fun c => c.isDigit)
  if ds = [] then none
  else some (ds.foldl (fun a c => a * 10 + (c.toNat - 48)) 0)

/-- JS `parseInt(s, 10)`: skip leading whitespace, optional sign, then a
maximal digit run; `NaN` (here `none`) when no digit follows. The model is
exact over integers; IEEE-754 overflow to Infinity on numerals above
~1.8e308 is outside it. -/
def jsParseInt (s : String) : Option Int :=
  match s.data.dropWhile (fun c => c.isWhitespace) with
  | [] => none
  | c :: rest =>
    if c = '-' then (parseIntDigits rest).map (fun n => -(n : Int))
    else if c = '+' then (parseIntDigits rest).map (fun n => (n : Int))
    else (parseIntDigits (c :: rest)).map (fun n => (n : Int))

/-- src/api/users.js lines 162-163: `parseInt(req.query.pageSize || "25")`
then `Math.min(100, finite ? raw : 25)` — an upper clamp only. -/
def pageSizeOf (param : Option String) : Int :=
  let str := match param with
    | none => "25"
    | some s => if s = "" then "25" else s
  min 100 ((jsParseInt str).getD 25)

/-! # Claim theorems -/

/-- C1 (counterexample): the claim says that when exactly one of the three
auxiliary count queries fails, the other two stats equal their correct
query result sizes. In the code the single `Promise.all` rejects as a
whole: with the first query failing and the other two succeeding with
sizes 5 and 2, `fetchStatsForUser` returns all-zero stats, not
`{0, 5, 2}`. -/
theorem claim_C1_counterexample :
    fetchStatsForUser (Except.error ()) (Except.ok 5) (Except.ok 2) =
      { agCount := 0, histTotal := 0, histPend := 0 } ∧
    fetchStatsForUser (Except.error ()) (Except.ok 5) (Except.ok 2) ≠
      { agCount := 0, histTotal := 5, histPend := 2 } := by
  constructor
  · rfl
  · decide

/-- C1 (amended): if any of the three auxiliary count queries fails,
`fetchStatsForUser` still returns and the record is still included in the
mapped page, but ALL THREE stats default to 0 (the `Promise.all` rejects
collectively); the stats equal the query result sizes only when all three
queries succeed. -/
theorem claim_C1_amended (a b c : QueryOutcome)
    (statsOracle : String → QueryOutcome × QueryOutcome × QueryOutcome)
    (normCA : Option JPrim → JPrim) (docs : List (String × UObj)) :
    (∀ x y z, a = Except.ok x → b = Except.ok y → c = Except.ok z →
      fetchStatsForUser a b c = { agCount := x, histTotal := y, histPend := z }) ∧
    ((a = Except.error () ∨ b = Except.error () ∨ c = Except.error ()) →
      fetchStatsForUser a b c = { agCount := 0, histTotal := 0, histPend := 0 }) ∧
    (mapPage statsOracle normCA docs).length = docs.length := by
  refine ⟨?_, ?_, ?_⟩
  · intro x y z hx hy hz
    subst hx; subst hy; subst hz
    rfl
  · intro h
    rcases h with h | h | h
    · subst h
      rfl
    · subst h
      cases a <;> rfl
    · subst h
      cases a <;> cases b <;> rfl
  · simp [mapPage]

/-- C1 (witness): all queries succeeding yields the three sizes. -/
theorem claim_C1_witness :
    fetchStatsForUser (Except.ok 3) (Except.ok 4) (Except.ok 1) =
      { agCount := 3, histTotal := 4, histPend := 1 } :=
  (claim_C1_amended (Except.ok 3) (Except.ok 4) (Except.ok 1)
    (fun _ => (Except.ok 0, Except.ok 0, Except.ok 0)) (fun _ => JPrim.pnull) []).1
    3 4 1 rfl rfl rfl

/-- C2 (code bug): the claim says a `pageCursor` of any content is treated
as absent and the request returns HTTP 200. Failing input: `pageCursor =
"Nw"` (codes `[78, 119]`), which base64url-decodes to the valid JSON
document `7`. The decoded value is a truthy primitive, so the guard
`cur && "sortVal" in cur` throws a TypeError outside the inner try/catch,
and the handler's outer catch answers HTTP 500, not 200. -/
theorem claim_C2_code_bug :
    decodeCursor [78, 119] = some (JVal.jnum 7) ∧
    groupScopeCursorStatus [78, 119] (buildGroupQueryUsersJs "createdAt" SortDir.desc 25) =
      500 := by
  constructor
  · rfl
  · rfl

/-- C5 (counterexample): at `sortField = "__name__"` the users.js group
query orders by `__name__` twice (the claim says the extra ordering is
added only when the sort field is not the identity key), and the decoded
cursor is still applied as the `(sortValue, path)` pair (the claim says
path alone). -/
theorem claim_C5_counterexample :
    (buildGroupQueryUsersJs "__name__" SortDir.desc 25).orderBys =
      [("__name__", SortDir.desc), ("__name__", SortDir.desc)] ∧
    (buildGroupQueryUsersJs "__name__" SortDir.desc 25).orderBys ≠
      (buildGroupQueryPart001 "__name__" SortDir.desc 25).orderBys ∧
    cursorStartAfterUsersJs "__name__" JVal.jnull (strCodes "artifacts/r/users/u1") =
      StartAfterPos.pairPos JVal.jnull (strCodes "artifacts/r/users/u1") ∧
    cursorStartAfterUsersJs "__name__" JVal.jnull (strCodes "artifacts/r/users/u1") ≠
      cursorStartAfterPart001 "__name__" (some JVal.jnull) (strCodes "artifacts/r/users/u1") := by
  refine ⟨rfl, by decide, rfl, ?_⟩
  intro h
  simp [cursorStartAfterUsersJs, cursorStartAfterPart001] at h

/-- C5 (amended): in src/api/users.js the group-scope query ALWAYS chains
`orderBy(sortField)` then `orderBy(__name__)` and ALWAYS applies a decoded
cursor as the `(sortValue, path)` pair, regardless of the sort field; this
coincides with the claimed conditional behaviour — implemented by
part_001's `buildGroupQuery` and cursor application — exactly when the
sort field is not the identity key. -/
theorem claim_C5_amended (sortField : String) (dir : SortDir) (pageSize : Int)
    (sv : JVal) (nameKey : List Nat) :
    (buildGroupQueryUsersJs sortField dir pageSize).orderBys =
      [(sortField, dir), ("__name__", dir)] ∧
    cursorStartAfterUsersJs sortField sv nameKey = StartAfterPos.pairPos sv nameKey ∧
    (sortField ≠ "__name__" →
      buildGroupQueryUsersJs sortField dir pageSize =
        buildGroupQueryPart001 sortField dir pageSize ∧
      cursorStartAfterUsersJs sortField sv nameKey =
        cursorStartAfterPart001 sortField (some sv) nameKey) := by
  refine ⟨rfl, rfl, fun hsf => ⟨?_, ?_⟩⟩
  · unfold buildGroupQueryUsersJs buildGroupQueryPart001
    rw [if_pos hsf]
  · unfold cursorStartAfterUsersJs cursorStartAfterPart001
    rw [if_neg hsf]
    rfl

/-- C5 (witness): at the non-identity sort field `createdAt` the users.js
build agrees with the conditional variant. -/
theorem claim_C5_witness :
    buildGroupQueryUsersJs "createdAt" SortDir.desc 25 =
      buildGroupQueryPart001 "createdAt" SortDir.desc 25 :=
  ((claim_C5_amended "createdAt" SortDir.desc 25 JVal.jnull []).2.2 (by decide)).1

/-- C6 (counterexample): the claim says an absent `sortField` validates to
the identity key `__name__`; in src/api/users.js an absent parameter
defaults to `"createdAt"`, which is in the whitelist and is kept. -/
theorem claim_C6_counterexample :
    sortFieldUsersJs none = "createdAt" ∧ sortFieldUsersJs none ≠ "__name__" := by
  constructor
  · rfl
  · decide

/-- C6 (amended): the validated sort field equals the requested one when it
is in the whitelist, and `__name__` when a non-empty requested value is
outside the whitelist; but an absent (or empty) `sortField` defaults to
`"createdAt"` in src/api/users.js — only the part_000 variant defaults the
absent case to `__name__` as the claim describes. -/
theorem claim_C6_amended :
    (∀ s ∈ ALLOWED_SORT, sortFieldUsersJs (some s) = s) ∧
    (∀ s : String, s ∉ ALLOWED_SORT → s ≠ "" → sortFieldUsersJs (some s) = "__name__") ∧
    sortFieldUsersJs none = "createdAt" ∧
    sortFieldPart000 none = "__name__" ∧
    (∀ s ∈ ALLOWED_SORT, sortFieldPart000 (some s) = s) ∧
    (∀ s : String, s ∉ ALLOWED_SORT → s ≠ "" → sortFieldPart000 (some s) = "__name__") := by
  refine ⟨?_, ?_, rfl, rfl, ?_, ?_⟩
  · intro s hs
    fin_cases hs <;> rfl
  · intro s hs hne
    show (if (if s = "" then "createdAt" else s) ∈ ALLOWED_SORT
      then (if s = "" then "createdAt" else s) else "__name__") = "__name__"
    rw [if_neg hne, if_neg hs]
  · intro s hs
    fin_cases hs <;> rfl
  · intro s hs hne
    show (if (if s = "" then "__name__" else s) ∈ ALLOWED_SORT
      then (if s = "" then "__name__" else s) else "__name__") = "__name__"
    rw [if_neg hne, if_neg hs]

/-- C6 (witness): a non-whitelisted sort field validates to `__name__`. -/
theorem claim_C6_witness : sortFieldUsersJs (some "foo") = "__name__" :=
  claim_C6_amended.2.1 "foo" (by decide) (by decide)

/-- C9 (counterexample): the claim says every unhandled-fault body carries
only a single opaque error code with no exception message. The
agendamentos handler's catch block also returns the exception's `message`
field: at a fault with message "boom" the 500 body has two fields, one of
them the raw message. -/
theorem claim_C9_counterexample :
    agendamentosHandlerMeta "GET" (Except.error ⟨strCodes "boom"⟩) =
      (500, [("error", JPrim.pstr (strCodes "server_error")),
             ("message", JPrim.pstr (strCodes "boom"))]) ∧
    (agendamentosHandlerMeta "GET" (Except.error ⟨strCodes "boom"⟩)).2.length ≠ 1 := by
  constructor
  · rfl
  · decide

/-- C9 (amended): src/api/users.js answers every unhandled fault with HTTP
500 and the single opaque body `{error: "server_error"}`, and both
handlers answer non-GET, non-OPTIONS methods with HTTP 405 and the single
opaque body `{error: "method_not_allowed"}`; the agendamentos handler's
500 body additionally carries the exception's message field. -/
theorem claim_C9_amended (method : String) (e : ErrObj) (run : Except ErrObj Body)
    (hm1 : method ≠ "GET") (hm2 : method ≠ "OPTIONS") :
    usersHandlerMeta "GET" (Except.error e) =
      (500, [("error", JPrim.pstr (strCodes "server_error"))]) ∧
    usersHandlerMeta method run =
      (405, [("error", JPrim.pstr (strCodes "method_not_allowed"))]) ∧
    agendamentosHandlerMeta method run =
      (405, [("error", JPrim.pstr (strCodes "method_not_allowed"))]) ∧
    agendamentosHandlerMeta "GET" (Except.error e) =
      (500, [("error", JPrim.pstr (strCodes "server_error")),
             ("message", JPrim.pstr e.message)]) := by
  refine ⟨rfl, ?_, ?_, rfl⟩
  · unfold usersHandlerMeta
    rw [if_neg hm2, if_pos hm1]
  · unfold agendamentosHandlerMeta
    rw [if_neg hm2, if_pos hm1]

/-- C9 (witness): a POST to the users handler is answered 405 with the
opaque code. -/
theorem claim_C9_witness :
    usersHandlerMeta "POST" (Except.ok []) =
      (405, [("error", JPrim.pstr (strCodes "method_not_allowed"))]) :=
  (claim_C9_amended "POST" ⟨strCodes "x"⟩ (Except.ok []) (by decide) (by decide)).2.1

/-- C10: the page size is clamped only from above. A `pageSize` parameter
that parses to an integer yields `min 100 parsed` — also when the parsed
value is zero or negative — and only a non-numeric or absent (or empty)
parameter falls back to the default 25. (Exact-integer model of
`parseInt`; IEEE-754 overflow on 300+-digit numerals is outside it.) -/
theorem claim_C10 :
    (∀ (s : String) (n : Int), s ≠ "" → jsParseInt s = some n →
      pageSizeOf (some s) = min 100 n) ∧
    (∀ s : String, s ≠ "" → jsParseInt s = none → pageSizeOf (some s) = 25) ∧
    pageSizeOf none = 25 ∧
    (∀ (s : String) (n : Int), s ≠ "" → jsParseInt s = some n → n ≤ 100 →
      pageSizeOf (some s) = n) := by
  have hbase : ∀ (s : String), s ≠ "" →
      pageSizeOf (some s) = min 100 ((jsParseInt s).getD 25) := by
    intro s hne
    show min 100 ((jsParseInt (if s = "" then "25" else s)).getD 25) =
      min 100 ((jsParseInt s).getD 25)
    rw [if_neg hne]
  refine ⟨?_, ?_, rfl, ?_⟩
  · intro s n hne hp
    rw [hbase s hne, hp]
    rfl
  · intro s hne hp
    rw [hbase s hne, hp]
    rfl
  · intro s n hne hp hle
    rw [hbase s hne, hp]
    show min 100 n = n
    omega

/-- C10 (witness): zero and negative page sizes pass through unclamped; a
non-numeric one falls back to 25; a large one is clamped to 100. -/
theorem claim_C10_witness :
    pageSizeOf (some "0") = 0 ∧ pageSizeOf (some "-5") = -5 ∧
    pageSizeOf (some "abc") = 25 ∧ pageSizeOf (some "500") = 100 := by
  refine ⟨claim_C10.2.2.2 "0" 0 (by decide) rfl (by decide),
    claim_C10.2.2.2 "-5" (-5) (by decide) rfl (by decide),
    claim_C10.2.1 "abc" (by decide) rfl, ?_⟩
  rw [claim_C10.1 "500" 500 (by decide) rfl]
  decide

/-! ### Support for C3 -/

theorem b64Encode_ne_nil (l : List Nat) (hl : l ≠ []) : b64Encode l ≠ [] := by
  match l, hl with
  | [], h => exact absurd rfl h
  | [b1], _ => simp [b64Encode]
  | [b1, b2], _ => simp [b64Encode]
  | b1 :: b2 :: b3 :: rest, _ => simp [b64Encode]

theorem utf8Encode_ne_nil (s : List Nat) (hs : s ≠ []) : utf8Encode s ≠ [] := by
  cases s with
  | nil => exact absurd rfl hs
  | cons c cs =>
      have h1 : utf8Encode (c :: cs) = utf8EncodeChar c ++ utf8Encode cs := by
        simp [utf8Encode]
      rw [h1]
      intro h2
      exact utf8EncodeChar_ne_nil c (List.append_eq_nil.mp h2).1

theorem encodeCursor_ne_nil (p : CursorPayload) : encodeCursor p ≠ [] := by
  unfold encodeCursor
  apply b64Encode_ne_nil
  apply utf8Encode_ne_nil
  simp [stringifyPayload]

/-- A pair of documents used to instantiate the C3 results. -/
def demoDocs2 : List SnapDoc :=
  [{ id := "u1", path := "artifacts/r/users/u1", fields := [] },
   { id := "u2", path := "artifacts/r/users/u2", fields := [] }]

/-- Five documents: a short page for a pageSize of 25. -/
def demoDocs5 : List SnapDoc :=
  [{ id := "u1", path := "artifacts/r/users/u1", fields := [] },
   { id := "u2", path := "artifacts/r/users/u2", fields := [] },
   { id := "u3", path := "artifacts/r/users/u3", fields := [] },
   { id := "u4", path := "artifacts/r/users/u4", fields := [] },
   { id := "u5", path := "artifacts/r/users/u5", fields := [] }]

/-- C3 (counterexample): the claim also covers the part_002 variant, which
emits `nextPageToken` for ANY non-empty page: a 5-document page against
pageSize 25 yields a non-null token and `hasMore = true`, refuting both
the "non-null iff exactly pageSize" equivalence and "hasMore is false
whenever the page returned fewer than pageSize documents". -/
theorem claim_C3_counterexample :
    ¬ (((nextPageTokenPart002 false demoDocs5).isSome ↔
        ((demoDocs5.length : Int) = 25)) ∧
      ((demoDocs5.length : Int) < 25 →
        hasMorePart002 (nextPageTokenPart002 false demoDocs5) = false)) := by
  decide

/-- C3 (amended): in src/api/users.js, for single-page requests in both
scopes, the outgoing cursor is non-null iff the page was non-empty and
contained exactly `pageSize` documents; `hasMore` equals whether the
cursor was produced (document ids being non-empty); and `hasMore` is false
whenever the page returned fewer than `pageSize` documents. The part_002
variant instead emits `nextPageToken` for every non-empty page. -/
theorem claim_C3_amended (pageSize : Int) (sortField : String) (docs : List SnapDoc)
    (hid : ∀ d ∈ docs, d.id ≠ "") :
    ((nextPageTokenSingle pageSize docs).isSome ↔
      ((docs.length : Int) = pageSize ∧ docs ≠ [])) ∧
    jsTruthyOptStr (nextPageTokenSingle pageSize docs) =
      (nextPageTokenSingle pageSize docs).isSome ∧
    ((docs.length : Int) < pageSize →
      jsTruthyOptStr (nextPageTokenSingle pageSize docs) = false) ∧
    ((nextPageCursorGroup pageSize sortField docs).isSome ↔
      ((docs.length : Int) = pageSize ∧ docs ≠ [])) ∧
    jsTruthyOptList (nextPageCursorGroup pageSize sortField docs) =
      (nextPageCursorGroup pageSize sortField docs).isSome ∧
    ((docs.length : Int) < pageSize →
      jsTruthyOptList (nextPageCursorGroup pageSize sortField docs) = false) := by
  by_cases hc : (docs.length : Int) = pageSize ∧ docs ≠ []
  · obtain ⟨last, hlast⟩ : ∃ last, docs.getLast? = some last := by
      cases hgl : docs.getLast? with
      | none => exact absurd (List.getLast?_eq_none_iff.mp hgl) hc.2
      | some last => exact ⟨last, rfl⟩
    have hmem : last ∈ docs := by
      have hx : last ∈ docs.getLast? := by
        rw [hlast]
        rfl
      obtain ⟨hne, heq⟩ := List.mem_getLast?_eq_getLast hx
      rw [heq]
      exact List.getLast_mem hne
    have hidlast : last.id ≠ "" := hid last hmem
    have htok : nextPageTokenSingle pageSize docs = some last.id := by
      unfold nextPageTokenSingle
      rw [if_pos hc, hlast]
      rfl
    have hcur : nextPageCursorGroup pageSize sortField docs = some (encodeCursor
        { sortVal := (docGet last sortField).getD JPrim.pnull,
          nameKey := strCodes last.path }) := by
      unfold nextPageCursorGroup
      rw [if_pos hc, hlast]
    rw [htok, hcur]
    refine ⟨by simp [hc], ?_, ?_, by simp [hc], ?_, ?_⟩
    · simp [jsTruthyOptStr, hidlast]
    · intro hlt
      exact absurd hc.1 (by omega)
    · simp [jsTruthyOptList, encodeCursor_ne_nil]
    · intro hlt
      exact absurd hc.1 (by omega)
  · have htok : nextPageTokenSingle pageSize docs = none := by
      unfold nextPageTokenSingle
      rw [if_neg hc]
    have hcur : nextPageCursorGroup pageSize sortField docs = none := by
      unfold nextPageCursorGroup
      rw [if_neg hc]
    rw [htok, hcur]
    exact ⟨by simp [hc], rfl, fun _ => rfl, by simp [hc], rfl, fun _ => rfl⟩

/-- C3 (witness): a full two-document page at pageSize 2 produces a token,
and `hasMore` tracks it. -/
theorem claim_C3_witness :
    jsTruthyOptStr (nextPageTokenSingle 2 demoDocs2) =
      (nextPageTokenSingle 2 demoDocs2).isSome :=
  (claim_C3_amended 2 "createdAt" demoDocs2 (by decide)).2.1

/-! ### Support for C4 -/

theorem wfStr_strCodes (s : String) : WfStr (strCodes s) := by
  intro c hc
  simp only [strCodes, List.mem_map] at hc
  obtain ⟨ch, _, rfl⟩ := hc
  have hv := ch.valid
  rcases hv with h | h
  · have : ch.toNat < 55296 := h
    omega
  · have : ch.toNat < 1114112 := h.2
    omega

/-- The payload used to instantiate the C4 round trip. -/
def demoPayload : CursorPayload :=
  { sortVal := JPrim.pstr (strCodes "2024-01-01T00:00:00.000Z"),
    nameKey := strCodes "artifacts/registro-itec-dcbc4/users/u1" }

/-- C4: the cursor codec round trip law and fail-closed decoding. For every
well-formed payload `x` (the `{sortVal, nameKey}` object shape the source
serializes), `decodeCursor (encodeCursor x)` returns exactly the JSON
object serialized; and `decodeCursor` is a total function that returns
`none` (the JS `null`) whenever any stage — base64url decode, UTF-8
decode, or JSON parse — fails, never propagating an exception. -/
theorem claim_C4 :
    (∀ p : CursorPayload, WfPayload p →
      decodeCursor (encodeCursor p) = some (payloadJVal p)) ∧
    (∀ s : List Nat, b64Decode s = none → decodeCursor s = none) ∧
    (∀ (s bytes : List Nat), b64Decode s = some bytes → utf8Decode bytes = none →
      decodeCursor s = none) ∧
    (∀ (s bytes chars : List Nat), b64Decode s = some bytes →
      utf8Decode bytes = some chars → parseJsonTop chars = none →
      decodeCursor s = none) := by
  refine ⟨fun p hp => decodeCursor_encodeCursor hp, ?_, ?_, ?_⟩
  · intro s h
    unfold decodeCursor
    rw [h]
  · intro s bytes h1 h2
    unfold decodeCursor
    rw [h1]
    show (match utf8Decode bytes with
      | none => none
      | some chars => parseJsonTop chars) = none
    rw [h2]
  · intro s bytes chars h1 h2 h3
    unfold decodeCursor
    rw [h1]
    show (match utf8Decode bytes with
      | none => none
      | some chars => parseJsonTop chars) = none
    rw [h2]
    exact h3

/-- C4 (witness): the round trip at a concrete timestamp/path payload. -/
theorem claim_C4_witness :
    decodeCursor (encodeCursor demoPayload) = some (payloadJVal demoPayload) :=
  claim_C4.1 demoPayload ⟨wfStr_strCodes _, wfStr_strCodes _⟩

/-! ### Support for C7 -/

theorem accumSingleAux_bounds (store : Option SnapDoc → List SnapDoc) (psN : Nat)
    (hstore : ∀ c, (store c).length ≤ psN) :
    ∀ (f : Nat) (cur : Option SnapDoc),
      (accumSingleAux store (psN : Int) f cur).2 ≤ f ∧
      (accumSingleAux store (psN : Int) f cur).1.length ≤ f * psN := by
  intro f
  induction f with
  | zero =>
      intro cur
      simp [accumSingleAux]
  | succ f ih =>
      intro cur
      have hs := hstore cur
      have hmul : (f + 1) * psN = f * psN + psN := Nat.succ_mul f psN
      unfold accumSingleAux
      split
      · simp
      · split
        · refine ⟨by simp, ?_⟩
          simp only []
          omega
        · split
          · refine ⟨by simp, ?_⟩
            simp only []
            omega
          · rename_i last heq
            obtain ⟨ih1, ih2⟩ := ih (some last)
            refine ⟨by simp; omega, ?_⟩
            simp only [List.length_append]
            omega

theorem accumGroupAux_bounds (store : Option (JPrim × String) → List SnapDoc)
    (sortField : String) (psN : Nat) (hstore : ∀ c, (store c).length ≤ psN) :
    ∀ (f : Nat) (cur : Option (JPrim × String)),
      (accumGroupAux store sortField (psN : Int) f cur).2 ≤ f ∧
      (accumGroupAux store sortField (psN : Int) f cur).1.length ≤ f * psN := by
  intro f
  induction f with
  | zero =>
      intro cur
      simp [accumGroupAux]
  | succ f ih =>
      intro cur
      have hs := hstore cur
      have hmul : (f + 1) * psN = f * psN + psN := Nat.succ_mul f psN
      unfold accumGroupAux
      split
      · simp
      · split
        · refine ⟨by simp, ?_⟩
          simp only []
          omega
        · split
          · refine ⟨by simp, ?_⟩
            simp only []
            omega
          · rename_i last heq
            obtain ⟨ih1, ih2⟩ := ih (some ((docGet last sortField).getD JPrim.pnull, last.path))
            refine ⟨by simp; omega, ?_⟩
            simp only [List.length_append]
            omega

/-- C7: for `all=1` requests in both scopes, the page loop performs at most
`MAX_PAGES = 500` iterations — stopping after a single iteration on an
empty or short first page — and the ceiling is not an error: the records
accumulated so far (at most `500 * pageSize` of them) are returned with
HTTP 200 and `hasMore = false`, i.e. no truncation signal. -/
theorem claim_C7 (storeS : Option SnapDoc → List SnapDoc)
    (storeG : Option (JPrim × String) → List SnapDoc) (sortField : String) (psN : Nat)
    (hS : ∀ c, (storeS c).length ≤ psN) (hG : ∀ c, (storeG c).length ≤ psN) :
    (accumSingle storeS (psN : Int)).2 ≤ 500 ∧
    (accumSingle storeS (psN : Int)).1.length ≤ 500 * psN ∧
    (accumGroup storeG sortField (psN : Int)).2 ≤ 500 ∧
    (accumGroup storeG sortField (psN : Int)).1.length ≤ 500 * psN ∧
    (fetchAllResponseSingle storeS (psN : Int)).status = 200 ∧
    (fetchAllResponseSingle storeS (psN : Int)).hasMore = false ∧
    (fetchAllResponseGroup storeG sortField (psN : Int)).status = 200 ∧
    (fetchAllResponseGroup storeG sortField (psN : Int)).hasMore = false ∧
    ((storeS none).length < psN → (accumSingle storeS (psN : Int)).2 ≤ 1) := by
  have hb1 := accumSingleAux_bounds storeS psN hS MAX_PAGES none
  have hb2 := accumGroupAux_bounds storeG sortField psN hG MAX_PAGES none
  refine ⟨hb1.1, hb1.2, hb2.1, hb2.2, rfl, rfl, rfl, rfl, ?_⟩
  intro hshort
  show (accumSingleAux storeS (psN : Int) MAX_PAGES none).2 ≤ 1
  rw [show MAX_PAGES = 499 + 1 from rfl]
  unfold accumSingleAux
  split
  · simp
  · split
    · simp
    · rename_i hne hge
      exact absurd (by exact_mod_cast hshort) hge

/-- C7 (witness): an always-empty store stops immediately; the response is
a 200 with no truncation signal. -/
theorem claim_C7_witness :
    (accumSingle (fun _ => []) ((25 : Nat) : Int)).2 ≤ 500 ∧
    (fetchAllResponseSingle (fun _ => []) ((25 : Nat) : Int)).hasMore = false := by
  have h := claim_C7 (fun _ => []) (fun _ => []) "createdAt" 25
    (fun c => by simp) (fun c => by simp)
  exact ⟨h.1, h.2.2.2.2.2.1⟩

/-! ### Support for C8 -/

theorem objGet_objSet_same (o : UObj) (k : String) (v : JPrim) :
    objGet (objSet o k v) k = some v := by
  induction o with
  | nil => simp [objGet, objSet]
  | cons f rest ih =>
      by_cases h : f.1 = k
      · simp [objSet, h, objGet]
      · simp only [objSet, if_neg h]
        unfold objGet at ih ⊢
        rw [List.find?_cons_of_neg _ (by simp [h])]
        exact ih

theorem objGet_objSet_other (o : UObj) (k k2 : String) (v : JPrim) (h : k2 ≠ k) :
    objGet (objSet o k v) k2 = objGet o k2 := by
  have h2 : ¬ (k = k2) := Ne.symm h
  induction o with
  | nil => simp [objGet, objSet, h2]
  | cons f rest ih =>
      by_cases hf : f.1 = k
      · simp [objGet, objSet, hf, h2]
      · simp only [objSet, if_neg hf]
        by_cases hf2 : f.1 = k2
        · simp [objGet, hf2]
        · simp only [objGet] at ih ⊢
          rw [List.find?_cons_of_neg _ (by simp [hf2]),
            List.find?_cons_of_neg _ (by simp [hf2])]
          exact ih

theorem applyOverrides_objGet : ∀ (ovs : List (String × JPrim)) (data : UObj) (k : String),
    k ∉ ovs.map Prod.fst → objGet (applyOverrides data ovs) k = objGet data k := by
  intro ovs
  induction ovs with
  | nil =>
      intro data k _
      rfl
  | cons ov rest ih =>
      intro data k hk
      simp only [List.map_cons, List.mem_cons] at hk
      push_neg at hk
      show objGet (applyOverrides (objSet data ov.1 ov.2) rest) k = objGet data k
      rw [ih _ k hk.2, objGet_objSet_other _ _ _ _ hk.1]

theorem objGet_eq_none (o : UObj) (k : String) (h : ∀ f ∈ o, ¬ f.1 = k) :
    objGet o k = none := by
  induction o with
  | nil => rfl
  | cons f rest ih =>
      unfold objGet at ih ⊢
      rw [List.find?_cons_of_neg _ (by simp [h f (by simp)])]
      exact ih (fun g hg => h g (by simp [hg]))

/-- C8: every response item carries exactly the public projection keys
(id, email, name, phone, source, createdAt, agCount, histTotal, histPend,
type, polo) and nothing else, even though `mapDocToUser` spreads every raw
stored field into the intermediate record (raw fields outside the
override keys remain readable on the intermediate object but are absent
from the projection). -/
theorem claim_C8 (normCA : Option JPrim → JPrim) (ag ht hp : Nat) (docId : String)
    (data : UObj) (qtext : List Nat) (items : List UObj) :
    ((projectUser (mapDocToUser normCA ag ht hp docId data)).map Prod.fst = projFields) ∧
    (∀ k, k ∉ mapOverrideKeys →
      objGet (mapDocToUser normCA ag ht hp docId data) k = objGet data k) ∧
    (∀ (u : UObj) (k : String), k ∉ projFields → objGet (projectUser u) k = none) ∧
    (∀ it ∈ responseItems qtext items, it.map Prod.fst = projFields) := by
  refine ⟨rfl, ?_, ?_, ?_⟩
  · intro k hk
    unfold mapDocToUser
    apply applyOverrides_objGet
    exact fun hmem => hk hmem
  · intro u k hk
    apply objGet_eq_none
    intro f hf hfk
    apply hk
    rw [← hfk]
    have hmem : f.1 ∈ (projectUser u).map Prod.fst := List.mem_map_of_mem _ hf
    exact hmem
  · intro it hit
    unfold responseItems at hit
    rw [List.mem_map] at hit
    obtain ⟨u, _, rfl⟩ := hit
    rfl

/-- A raw document with an internal field (`cpf`) outside the projection. -/
def demoRawData : UObj :=
  [("cpf", JPrim.pstr (strCodes "12345678900")),
   ("email", JPrim.pstr (strCodes "a@b.c"))]

/-- C8 (witness): the internal raw field is spread into the intermediate
record but never appears in the projected response item. -/
theorem claim_C8_witness :
    objGet (mapDocToUser (fun _ => JPrim.pnull) 1 2 3 "u1" demoRawData) "cpf" =
      some (JPrim.pstr (strCodes "12345678900")) ∧
    objGet (projectUser (mapDocToUser (fun _ => JPrim.pnull) 1 2 3 "u1" demoRawData))
      "cpf" = none := by
  constructor
  · rw [(claim_C8 (fun _ => JPrim.pnull) 1 2 3 "u1" demoRawData [] []).2.1 "cpf"
      (by decide)]
    rfl
  · exact (claim_C8 (fun _ => JPrim.pnull) 1 2 3 "u1" demoRawData [] []).2.2.1 _ "cpf"
      (by decide)

end DashItec
